import Mathlib

/-!
Verification of the natural-language specification of the TZif decoder
in tz_info.py against a shallow embedding of its code.

Conventions of the embedding:
- a Python bytes object is a List Nat (each element a byte value);
- Python slicing mem[a:b] (which clamps out-of-range bounds) is pySlice;
- struct.unpack raises struct.error when the buffer length differs from
  the format size; the spec error taxonomy maps this to TruncatedData;
- each assert statement in the source maps to the spec error named for
  its condition (BadMagic, UnsupportedVersion, InconsistentCounts,
  InvalidQuery, IndexOutOfRange); the column guard of
  get_local_time_type_field maps to a generic assertionError;
- subscripting a field that still holds Python None maps to noneType,
  and tuple indexing out of range maps to indexError;
- Python dynamic values compared across types (the version field is
  sometimes the int 0 and sometimes a one-byte bytes object) are
  modelled by PyVal; Python equality between an int and a bytes value
  is always False, which pyEq reproduces.
-/

deriving instance DecidableEq for Except

set_option maxRecDepth 4000

namespace TzInfo

/-- A Python value that is either an int or a bytes object.  The version
field of the decoder starts as the int 0 and is overwritten by the
one-byte bytes object unpacked from the header. -/
inductive PyVal where
  | int : Int → PyVal
  | bytes : List Nat → PyVal
deriving DecidableEq

/-- Python equality on PyVal values: ints compare to ints, bytes compare
to bytes, and a comparison across the two types is False (no error). -/
def pyEq : PyVal → PyVal → Bool
  | .int a, .int b => a == b
  | .bytes a, .bytes b => a == b
  | _, _ => false

/-- Byte strings are lists of byte values. -/
abbrev Bytes := List Nat

/-- Python slice mem[a:b]: clamps at the end of the list. -/
def pySlice (mem : Bytes) (a b : Nat) : Bytes :=
  (mem.drop a).take (b - a)

/-- Big-endian unsigned interpretation of a byte string. -/
def beNat (bs : Bytes) : Nat :=
  bs.foldl (fun acc x => acc * 256 + x) 0

/-- Big-endian signed (twos-complement) interpretation at width w. -/
def beSigned (w : Nat) (bs : Bytes) : Int :=
  let n := beNat bs
  if n < 2 ^ (8 * w - 1) then (n : Int) else (n : Int) - 2 ^ (8 * w)

/-- Model of struct.unpack for n big-endian signed integers of width w
(formats !{n}l and !{n}q in the source): fails unless the buffer has
exactly n * w bytes. -/
def unpackBE (w n : Nat) (bs : Bytes) : Option (List Int) :=
  if bs.length = n * w then
    some ((List.range n).map fun i => beSigned w (pySlice bs (i * w) (i * w + w)))
  else none

/-- Model of struct.unpack for the format {n}B: n unsigned bytes. -/
def unpackBytes (n : Nat) (bs : Bytes) : Option (List Nat) :=
  if bs.length = n then some bs else none

/-- Model of struct.unpack with format !lBB over a 6-byte record:
(utoff, isdst, desigidx), all Python ints. -/
def unpackRecord (bs : Bytes) : Int × Int × Int :=
  (beSigned 4 (pySlice bs 0 4), (bs.getD 4 0 : Int), (bs.getD 5 0 : Int))

/-- The per-record unpack loop over the local-time-type block: the i-th
record is unpacked from block[6i : 6i+6]; unpacking fails exactly when
the block is shorter than 6n (the last slice comes out short). -/
def unpackRecords (n : Nat) (bs : Bytes) : Option (List (Int × Int × Int)) :=
  if bs.length = n * 6 then
    some ((List.range n).map fun i => unpackRecord (pySlice bs (i * 6) (i * 6 + 6)))
  else none

/-- The per-record unpack loop over the leap-second block, formats !ll or
!ql: record i is (occurrence at width w, correction at width 4) taken
from block[i*(w+4) : (i+1)*(w+4)]; fails when the block is short. -/
def unpackLeaps (w n : Nat) (bs : Bytes) : Option (List (Int × Int)) :=
  if bs.length = n * (w + 4) then
    some ((List.range n).map fun i =>
      (beSigned w (pySlice bs (i * (w + 4)) (i * (w + 4) + w)),
       beSigned 4 (pySlice bs (i * (w + 4) + w) (i * (w + 4) + w + 4))))
  else none

/-- Typed failures, named after the spec taxonomy; see the header comment
for the mapping from Python exceptions to these names. -/
inductive TZError where
  | badMagic
  | unsupportedVersion
  | inconsistentCounts
  | truncatedData
  | indexOutOfRange
  | invalidQuery
  | assertionError
  | noneType
  | indexError
deriving DecidableEq

/-- The mutable fields of a TZInfo object (minus the tz name and basedir,
which only address the external file and play no role in decoding). -/
structure TZState where
  version : PyVal
  isutcnt : Nat
  isstdcnt : Nat
  leapcnt : Nat
  timecnt : Nat
  typecnt : Nat
  charcnt : Nat
  transition_times : Option (List Int)
  transition_types : Option (List Nat)
  local_time_type_records : Option (List (Int × Int × Int))
  time_zone_designations : Option Bytes
  leap_seconds_records : Option (List (Int × Int))
  standard_wall_indicators : Option (List Nat)
  ut_local_indicators : Option (List Nat)
  tz_strings : Option Bytes
deriving DecidableEq

/-- The state set up by TZInfo.__init__. -/
def tzinit : TZState :=
  { version := .int 0
    isutcnt := 0, isstdcnt := 0, leapcnt := 0
    timecnt := 0, typecnt := 0, charcnt := 0
    transition_times := none, transition_types := none
    local_time_type_records := none, time_zone_designations := none
    leap_seconds_records := none, standard_wall_indicators := none
    ut_local_indicators := none, tz_strings := none }

/-- The fixed magic tag, the bytes of TZif. -/
def magicTag : Bytes := [84, 90, 105, 102]

/-- read_header: unpacks the format !4sc15xIIIIII from exactly 44 bytes
(struct.error otherwise): magic mem[0:4], version byte mem[4], 15 pad
bytes, then six big-endian unsigned 32-bit counts at offsets 20..43 in
the order isutcnt, isstdcnt, leapcnt, timecnt, typecnt, charcnt.  The
version assert compares the one-byte bytes object with the int 0 and
with the bytes objects for the characters 2 and 3. -/
def read_header (st : TZState) (mem : Bytes) : Except TZError TZState :=
  if mem.length = 44 then
    let magic := pySlice mem 0 4
    let ver := mem.getD 4 0
    let isutcnt := beNat (pySlice mem 20 24)
    let isstdcnt := beNat (pySlice mem 24 28)
    let leapcnt := beNat (pySlice mem 28 32)
    let timecnt := beNat (pySlice mem 32 36)
    let typecnt := beNat (pySlice mem 36 40)
    let charcnt := beNat (pySlice mem 40 44)
    if pyEq (.bytes magic) (.bytes magicTag) then
      if pyEq (.bytes [ver]) (.int 0) || pyEq (.bytes [ver]) (.bytes [50])
          || pyEq (.bytes [ver]) (.bytes [51]) then
        if isutcnt = 0 ∨ isutcnt = typecnt then
          if isstdcnt = 0 ∨ isstdcnt = typecnt then
            .ok { st with
              version := .bytes [ver]
              isutcnt := isutcnt, isstdcnt := isstdcnt, leapcnt := leapcnt
              timecnt := timecnt, typecnt := typecnt, charcnt := charcnt }
          else .error .inconsistentCounts
        else .error .inconsistentCounts
      else .error .unsupportedVersion
    else .error .badMagic
  else .error .truncatedData

/-- get_data_block_len: sums the field sizes, with TIME_SIZE 4 when the
argument equals the int 1 (Python ==, so a bytes version gives 8). -/
def get_data_block_len (st : TZState) (data_block_ver : PyVal) : Nat :=
  let TIME_SIZE := if pyEq data_block_ver (.int 1) then 4 else 8
  st.timecnt * TIME_SIZE + st.timecnt + st.typecnt * 6 + st.charcnt
    + st.leapcnt * (TIME_SIZE + 4) + st.isstdcnt + st.isutcnt

/-- Transition times and transition types step of read_data_block: both
unpacked only when timecnt is nonzero, advancing mem_idx past both. -/
def rdbTimesTypes (TS : Nat) (st : TZState) (mem : Bytes) (idx : Nat) :
    Except TZError (TZState × Nat) :=
  if st.timecnt = 0 then .ok (st, idx)
  else
    match unpackBE TS st.timecnt (pySlice mem idx (idx + st.timecnt * TS)),
          unpackBytes st.timecnt
            (pySlice mem (idx + st.timecnt * TS) (idx + st.timecnt * TS + st.timecnt)) with
    | some ts, some tt =>
        .ok ({ st with transition_times := some ts, transition_types := some tt },
             idx + st.timecnt * TS + st.timecnt)
    | _, _ => .error .truncatedData

/-- Local-time-type records step of read_data_block. -/
def rdbRecords (st : TZState) (mem : Bytes) (idx : Nat) :
    Except TZError (TZState × Nat) :=
  if st.typecnt = 0 then .ok (st, idx)
  else
    match unpackRecords st.typecnt (pySlice mem idx (idx + st.typecnt * 6)) with
    | some rs =>
        .ok ({ st with local_time_type_records := some rs }, idx + st.typecnt * 6)
    | none => .error .truncatedData

/-- Designation bytes step of read_data_block: the source stores the raw
slice mem[idx : idx+charcnt] with no unpack and hence no length check,
so this step never fails (the slice may silently come out short). -/
def rdbChars (st : TZState) (mem : Bytes) (idx : Nat) : TZState × Nat :=
  if st.charcnt = 0 then (st, idx)
  else ({ st with time_zone_designations := some (pySlice mem idx (idx + st.charcnt)) },
        idx + st.charcnt)

/-- Leap-second records step of read_data_block. -/
def rdbLeaps (TS : Nat) (st : TZState) (mem : Bytes) (idx : Nat) :
    Except TZError (TZState × Nat) :=
  if st.leapcnt = 0 then .ok (st, idx)
  else
    match unpackLeaps TS st.leapcnt (pySlice mem idx (idx + st.leapcnt * (TS + 4))) with
    | some ls =>
        .ok ({ st with leap_seconds_records := some ls }, idx + st.leapcnt * (TS + 4))
    | none => .error .truncatedData

/-- Standard/wall indicators step of read_data_block. -/
def rdbStd (st : TZState) (mem : Bytes) (idx : Nat) :
    Except TZError (TZState × Nat) :=
  if st.isstdcnt = 0 then .ok (st, idx)
  else
    match unpackBytes st.isstdcnt (pySlice mem idx (idx + st.isstdcnt)) with
    | some xs =>
        .ok ({ st with standard_wall_indicators := some xs }, idx + st.isstdcnt)
    | none => .error .truncatedData

/-- UT/local indicators step of read_data_block (the source does not
advance mem_idx afterwards; the returned index is unused). -/
def rdbUt (st : TZState) (mem : Bytes) (idx : Nat) :
    Except TZError (TZState × Nat) :=
  if st.isutcnt = 0 then .ok (st, idx)
  else
    match unpackBytes st.isutcnt (pySlice mem idx (idx + st.isutcnt)) with
    | some xs =>
        .ok ({ st with ut_local_indicators := some xs }, idx + st.isutcnt)
    | none => .error .truncatedData

/-- The last three fields of read_data_block (leap-second records, then
the two indicator arrays), threaded after the designation step. -/
def rdbTail (TS : Nat) (st : TZState) (mem : Bytes) (idx : Nat) :
    Except TZError TZState :=
  match rdbLeaps TS st mem idx with
  | .error e => .error e
  | .ok (st4, i4) =>
    match rdbStd st4 mem i4 with
    | .error e => .error e
    | .ok (st5, i5) => (rdbUt st5 mem i5).map (fun p => p.1)

/-- read_data_block at an explicit time-value width TS, the fixed field
order of the source with mem_idx threaded through the steps. -/
def read_data_block_w (TS : Nat) (st : TZState) (mem : Bytes) :
    Except TZError TZState :=
  match rdbTimesTypes TS st mem 0 with
  | .error e => .error e
  | .ok (st1, i1) =>
    match rdbRecords st1 mem i1 with
    | .error e => .error e
    | .ok (st2, i2) =>
      let p := rdbChars st2 mem i2
      rdbTail TS p.1 mem p.2

/-- read_data_block: the source picks TIME_SIZE from self.version, which
is the int 0 only before any header has been read (a bytes version from
read_header never equals the int 0). -/
def read_data_block (st : TZState) (mem : Bytes) : Except TZError TZState :=
  read_data_block_w (if pyEq st.version (.int 0) then 4 else 8) st mem

/-- read_footer stores the remaining bytes verbatim. -/
def read_footer (st : TZState) (buf : Bytes) : TZState :=
  { st with tz_strings := some buf }

/-- read: the whole pipeline on an in-memory buffer (the file access of
the source only produces this buffer and is out of scope).  Mirrors the
begin/end offset arithmetic of the source; in the non-legacy branch the
first data block region is stepped over (begin = end) without being
decoded. -/
def read (st : TZState) (buf : Bytes) : Except TZError TZState :=
  if 44 < buf.length then
    match read_header st (pySlice buf 0 44) with
    | .error e => .error e
    | .ok st1 =>
      let e1 := 44 + get_data_block_len st1 (.int 1)
      if pyEq st1.version (.int 0) then
        read_data_block st1 (pySlice buf 44 e1)
      else
        match read_header st1 (pySlice buf e1 (e1 + 44)) with
        | .error e => .error e
        | .ok st2 =>
          let e3 := e1 + 44 + get_data_block_len st2 st2.version
          match read_data_block st2 (pySlice buf (e1 + 44) e3) with
          | .error e => .error e
          | .ok st3 => .ok (read_footer st3 (buf.drop e3))
  else .error .truncatedData

/-- The private recursive bisection __search_transition_index, embedded
with a fuel argument because the Python recursion is unbounded (and can
in fact loop on intervals with end below begin, which the public entry
point never produces).  Fuel timecnt is enough for the call pattern of
get_transition_index, since every recursive call strictly shrinks
end - begin; the out-of-fuel value 0 is never reached there. -/
def search_transition_index (fuel : Nat) (times : List Int) (timecnt : Nat)
    (t : Int) (b e : Nat) : Int :=
  match fuel with
  | 0 => 0
  | fuel + 1 =>
    if times.getD (timecnt - 1) 0 ≤ t then (timecnt : Int) - 1
    else if t < times.getD 0 0 then -1
    else if b + 1 = e then
      if t < times.getD e 0 then (b : Int) else (e : Int)
    else if b = e then (b : Int)
    else
      let mid := (b + e) / 2
      if t < times.getD mid 0 then
        search_transition_index fuel times timecnt t b (mid - 1)
      else if times.getD mid 0 < t then
        search_transition_index fuel times timecnt t mid e
      else (mid : Int)

/-- Number of nested recursive calls performed by the bisection, for the
depth bound; mirrors the branch structure of search_transition_index. -/
def search_depth (fuel : Nat) (times : List Int) (timecnt : Nat)
    (t : Int) (b e : Nat) : Nat :=
  match fuel with
  | 0 => 0
  | fuel + 1 =>
    if times.getD (timecnt - 1) 0 ≤ t then 0
    else if t < times.getD 0 0 then 0
    else if b + 1 = e then 0
    else if b = e then 0
    else
      let mid := (b + e) / 2
      if t < times.getD mid 0 then
        search_depth fuel times timecnt t b (mid - 1) + 1
      else if times.getD mid 0 < t then
        search_depth fuel times timecnt t mid e + 1
      else 0

/-- get_transition_index, with the transition table and its count passed
explicitly in place of the object fields. -/
def get_transition_index (times : List Int) (timecnt : Nat) (t : Int) : Int :=
  if timecnt = 0 then -1
  else search_transition_index timecnt times timecnt t 0 (timecnt - 1)

/-- get_local_time_type: Python returns None when timecnt is 0; the
asserts on the transition index and the type index map to InvalidQuery
and IndexOutOfRange per the spec taxonomy. -/
def get_local_time_type (st : TZState) (trans_idx : Int) :
    Except TZError (Option (Int × Int × Int)) :=
  if st.timecnt = 0 then .ok none
  else if 0 ≤ trans_idx ∧ trans_idx ≤ (st.timecnt : Int) - 1 then
    match st.transition_types with
    | none => .error .noneType
    | some tt =>
      if trans_idx.toNat < tt.length then
        let type_index := tt.getD trans_idx.toNat 0
        if 0 ≤ (type_index : Int) ∧ (type_index : Int) ≤ (st.typecnt : Int) - 1 then
          match st.local_time_type_records with
          | none => .error .noneType
          | some rs =>
            if type_index < rs.length then .ok (some (rs.getD type_index (0, 0, 0)))
            else .error .indexError
        else .error .indexOutOfRange
      else .error .indexError
  else .error .invalidQuery

/-- get_local_time_type_field: the column guard runs first; a None record
(timecnt 0) yields the literal 0, otherwise the tuple is indexed by the
column. -/
def get_local_time_type_field (st : TZState) (trans_idx : Int) (column : Int) :
    Except TZError Int :=
  if 0 ≤ column ∧ column ≤ 2 then
    match get_local_time_type st trans_idx with
    | .error e => .error e
    | .ok none => .ok 0
    | .ok (some r) =>
        .ok (if column = 0 then r.1 else if column = 1 then r.2.1 else r.2.2)
  else .error .assertionError

/-- get_transition_offset. -/
def get_transition_offset (st : TZState) (trans_idx : Int) : Except TZError Int :=
  get_local_time_type_field st trans_idx 0

/-- get_transition_isdst. -/
def get_transition_isdst (st : TZState) (trans_idx : Int) : Except TZError Int :=
  get_local_time_type_field st trans_idx 1

/-- get_transition_desig_index. -/
def get_transition_desig_index (st : TZState) (trans_idx : Int) : Except TZError Int :=
  get_local_time_type_field st trans_idx 2

/-- Two-digit zero padding as produced by strftime. -/
def pad2 (n : Nat) : String :=
  if n < 10 then "0" ++ toString n else toString n

/-- utoff_strftime: a sign character from the sign of the argument,
followed by strftime("%H:%M:%S", gmtime(utoff)).  gmtime reduces its
argument modulo 86400 to a time of day (Python int modulo is
nonnegative, matching Int.emod), so the digits render utoff mod 86400,
not the absolute value of utoff. -/
def utoff_strftime (utoff : Int) : String :=
  let sign := if utoff < 0 then "-" else "+"
  let s := (utoff % 86400).toNat
  sign ++ pad2 (s / 3600) ++ ":" ++ pad2 (s % 3600 / 60) ++ ":" ++ pad2 (s % 60)

/-- The data-block length at the width read_data_block actually uses:
width 4 only while the version field is still the int 0, width 8 for
any bytes version (get_data_block_len only tests its argument against
the int 1, so any other PyVal selects width 8). -/
def active_data_block_len (st : TZState) : Nat :=
  get_data_block_len st (if pyEq st.version (.int 0) then .int 1 else .int 2)

/-- A 44-byte header with the given version byte and small timecnt,
typecnt, charcnt (isutcnt, isstdcnt, leapcnt all zero). -/
def mkHeader (ver timecnt typecnt charcnt : Nat) : Bytes :=
  magicTag ++ [ver] ++ List.replicate 15 0
    ++ [0, 0, 0, 0] ++ [0, 0, 0, 0] ++ [0, 0, 0, 0]
    ++ [0, 0, 0, timecnt] ++ [0, 0, 0, typecnt] ++ [0, 0, 0, charcnt]

/-- A version-2 buffer whose first header announces one transition and
whose second header announces none: first data block of 5 bytes (one
32-bit time 100, one type byte 7), then the second header, no second
data block, empty footer. -/
def bufC1 : Bytes :=
  mkHeader 50 1 0 0 ++ [0, 0, 0, 100, 7] ++ mkHeader 50 0 0 0

/-- A version-2 buffer that parses successfully although its (second)
data block violates every content invariant: transition times
[100, -100] are decreasing, transition type 5 is at least typecnt 1,
and the designation index 3 is at least charcnt 1. -/
def bufC6 : Bytes :=
  mkHeader 50 2 1 1 ++ List.replicate 17 0 ++ mkHeader 50 2 1 1
    ++ [0, 0, 0, 0, 0, 0, 0, 100]
    ++ [255, 255, 255, 255, 255, 255, 255, 156]
    ++ [5, 0] ++ [0, 0, 0, 0, 0, 3] ++ [65]

/-- Follows the words of claim C1 and spec steps 3 and 5 (not the
source): decode the first data-block region as the legacy layout at
width 4, then re-run the header parser and decode the second region at
width 8, then capture the footer.  To be compared with read. -/
def read_claim_pipeline (st : TZState) (buf : Bytes) : Except TZError TZState :=
  if 44 < buf.length then
    match read_header st (pySlice buf 0 44) with
    | .error e => .error e
    | .ok st1 =>
      let e1 := 44 + get_data_block_len st1 (.int 1)
      match read_data_block_w 4 st1 (pySlice buf 44 e1) with
      | .error e => .error e
      | .ok st1b =>
        match read_header st1b (pySlice buf e1 (e1 + 44)) with
        | .error e => .error e
        | .ok st2 =>
          let e3 := e1 + 44 + get_data_block_len st2 st2.version
          match read_data_block_w 8 st2 (pySlice buf (e1 + 44) e3) with
          | .error e => .error e
          | .ok st3 => .ok (read_footer st3 (buf.drop e3))
  else .error .truncatedData

/-- The amended description of read: identical to read_claim_pipeline
except that the first data-block region is skipped without being
decoded, and there is no legacy branch (the header parser never accepts
a legacy version byte). -/
def read_skip_pipeline (st : TZState) (buf : Bytes) : Except TZError TZState :=
  if 44 < buf.length then
    match read_header st (pySlice buf 0 44) with
    | .error e => .error e
    | .ok st1 =>
      let e1 := 44 + get_data_block_len st1 (.int 1)
      match read_header st1 (pySlice buf e1 (e1 + 44)) with
      | .error e => .error e
      | .ok st2 =>
        let e3 := e1 + 44 + get_data_block_len st2 st2.version
        match read_data_block st2 (pySlice buf (e1 + 44) e3) with
        | .error e => .error e
        | .ok st3 => .ok (read_footer st3 (buf.drop e3))
  else .error .truncatedData

/-- A document with one transition and one record, for exercising the
BEFORE_FIRST sentinel path of the accessors. -/
def docC4 : TZState :=
  { tzinit with
    timecnt := 1, typecnt := 1, charcnt := 1
    transition_times := some [0], transition_types := some [0]
    local_time_type_records := some [(3600, 1, 0)] }

/-- The same document with timecnt forced to 0 (the NONE sentinel case);
its stored record (3600, 1, 0) is available but never consulted. -/
def docC4none : TZState := { docC4 with timecnt := 0 }

/-- A state whose only nonzero count is charcnt, so the whole computed
data-block length lies in the unchecked raw designation slice. -/
def stC7 : TZState := { tzinit with version := .bytes [50], charcnt := 5 }

/-- A state with one transition and no characters, whose data block at
the active width 8 needs 9 bytes that an empty region cannot supply. -/
def stC7short : TZState := { tzinit with version := .bytes [50], timecnt := 1 }

/-- A state with every count zero and a bytes version. -/
def stC7zero : TZState := { tzinit with version := .bytes [50] }

/-- The document that read parses out of bufC6. -/
def docC6 : TZState :=
  { version := .bytes [50]
    isutcnt := 0, isstdcnt := 0, leapcnt := 0
    timecnt := 2, typecnt := 1, charcnt := 1
    transition_times := some [100, -100], transition_types := some [5, 0]
    local_time_type_records := some [(0, 0, 3)]
    time_zone_designations := some [65]
    leap_seconds_records := none, standard_wall_indicators := none
    ut_local_indicators := none, tz_strings := some [] }

/-- Inversion of a successful read_header: the input was exactly 44
bytes and the result is the input state with the version byte and the
six counts overwritten (every other field untouched). -/
theorem read_header_ok_inv (st : TZState) (mem : Bytes) (st' : TZState)
    (h : read_header st mem = .ok st') :
    st' = { st with
      version := .bytes [mem.getD 4 0]
      isutcnt := beNat (pySlice mem 20 24), isstdcnt := beNat (pySlice mem 24 28)
      leapcnt := beNat (pySlice mem 28 32), timecnt := beNat (pySlice mem 32 36)
      typecnt := beNat (pySlice mem 36 40), charcnt := beNat (pySlice mem 40 44) } := by
  unfold read_header at h
  dsimp only at h
  split_ifs at h
  injection h with h1
  exact h1.symm

/-- After any successful read_header the version field is a bytes value,
so a Python comparison with an int yields False. -/
theorem read_header_ok_version_not_int (st : TZState) (mem : Bytes) (st' : TZState)
    (h : read_header st mem = .ok st') (k : Int) :
    pyEq st'.version (.int k) = false := by
  rw [read_header_ok_inv st mem st' h]
  rfl

theorem pySlice_length (mem : Bytes) (a b : Nat) :
    (pySlice mem a b).length = min (b - a) (mem.length - a) := by
  simp [pySlice]

theorem unpackBE_some_length {w n : Nat} {bs : Bytes} {ts : List Int}
    (h : unpackBE w n bs = some ts) : ts.length = n := by
  unfold unpackBE at h
  by_cases hc : bs.length = n * w
  · rw [if_pos hc] at h
    injection h with h1
    rw [← h1]; simp
  · rw [if_neg hc] at h
    exact Option.noConfusion h

theorem unpackBytes_some_length {n : Nat} {bs ts : Bytes}
    (h : unpackBytes n bs = some ts) : ts.length = n := by
  unfold unpackBytes at h
  by_cases hc : bs.length = n
  · rw [if_pos hc] at h
    injection h with h1
    rw [← h1]; exact hc
  · rw [if_neg hc] at h
    exact Option.noConfusion h

theorem unpackRecords_some_length {n : Nat} {bs : Bytes} {rs : List (Int × Int × Int)}
    (h : unpackRecords n bs = some rs) : rs.length = n := by
  unfold unpackRecords at h
  by_cases hc : bs.length = n * 6
  · rw [if_pos hc] at h
    injection h with h1
    rw [← h1]; simp
  · rw [if_neg hc] at h
    exact Option.noConfusion h

theorem unpackLeaps_some_length {w n : Nat} {bs : Bytes} {ls : List (Int × Int)}
    (h : unpackLeaps w n bs = some ls) : ls.length = n := by
  unfold unpackLeaps at h
  by_cases hc : bs.length = n * (w + 4)
  · rw [if_pos hc] at h
    injection h with h1
    rw [← h1]; simp
  · rw [if_neg hc] at h
    exact Option.noConfusion h

theorem rdbTimesTypes_ok (TS : Nat) (st : TZState) (mem : Bytes) (idx : Nat)
    (h : idx + st.timecnt * TS + st.timecnt ≤ mem.length) :
    ∃ st1, rdbTimesTypes TS st mem idx
        = .ok (st1, idx + st.timecnt * TS + st.timecnt) ∧
      ((st.timecnt = 0 ∧ st1 = st) ∨
        (st.timecnt ≠ 0 ∧ ∃ ts tt, ts.length = st.timecnt ∧ tt.length = st.timecnt ∧
          st1 = { st with transition_times := some ts, transition_types := some tt })) := by
  by_cases hz : st.timecnt = 0
  · exact ⟨st, by simp [rdbTimesTypes, hz], Or.inl ⟨hz, rfl⟩⟩
  · have hl1 : (pySlice mem idx (idx + st.timecnt * TS)).length = st.timecnt * TS := by
      rw [pySlice_length]; omega
    have hl2 : (pySlice mem (idx + st.timecnt * TS)
        (idx + st.timecnt * TS + st.timecnt)).length = st.timecnt := by
      rw [pySlice_length]; omega
    obtain ⟨ts, hts⟩ : ∃ ts, unpackBE TS st.timecnt
        (pySlice mem idx (idx + st.timecnt * TS)) = some ts :=
      ⟨_, by unfold unpackBE; rw [if_pos hl1]⟩
    obtain ⟨tt, htt⟩ : ∃ tt, unpackBytes st.timecnt
        (pySlice mem (idx + st.timecnt * TS)
          (idx + st.timecnt * TS + st.timecnt)) = some tt :=
      ⟨_, by unfold unpackBytes; rw [if_pos hl2]⟩
    refine ⟨{ st with transition_times := some ts, transition_types := some tt },
      ?_, Or.inr ⟨hz, ts, tt, unpackBE_some_length hts, unpackBytes_some_length htt, rfl⟩⟩
    unfold rdbTimesTypes
    rw [if_neg hz, hts, htt]

theorem rdbTimesTypes_err (TS : Nat) (st : TZState) (mem : Bytes) (idx : Nat)
    (hnz : st.timecnt ≠ 0) (h : mem.length < idx + st.timecnt * TS + st.timecnt) :
    rdbTimesTypes TS st mem idx = .error .truncatedData := by
  have hs1 := pySlice_length mem idx (idx + st.timecnt * TS)
  have hs2 := pySlice_length mem (idx + st.timecnt * TS)
    (idx + st.timecnt * TS + st.timecnt)
  unfold rdbTimesTypes unpackBE unpackBytes
  rw [if_neg hnz]
  by_cases h1 : (pySlice mem idx (idx + st.timecnt * TS)).length = st.timecnt * TS
  · have h2 : (pySlice mem (idx + st.timecnt * TS)
        (idx + st.timecnt * TS + st.timecnt)).length ≠ st.timecnt := by omega
    rw [if_pos h1, if_neg h2]
  · by_cases h2 : (pySlice mem (idx + st.timecnt * TS)
        (idx + st.timecnt * TS + st.timecnt)).length = st.timecnt
    · rw [if_neg h1, if_pos h2]
    · rw [if_neg h1, if_neg h2]

theorem rdbTimesTypes_ok_inv {TS : Nat} {st : TZState} {mem : Bytes} {idx : Nat}
    {st1 : TZState} {i1 : Nat}
    (h : rdbTimesTypes TS st mem idx = .ok (st1, i1)) :
    i1 = idx + st.timecnt * TS + st.timecnt ∧
    ((st.timecnt = 0 ∧ st1 = st) ∨
      (st.timecnt ≠ 0 ∧ ∃ ts tt, ts.length = st.timecnt ∧ tt.length = st.timecnt ∧
        st1 = { st with transition_times := some ts, transition_types := some tt })) := by
  unfold rdbTimesTypes at h
  by_cases hz : st.timecnt = 0
  · rw [if_pos hz] at h
    injection h with h1
    injection h1 with ha hb
    refine ⟨by rw [hz]; simpa using hb.symm, Or.inl ⟨hz, ha.symm⟩⟩
  · rw [if_neg hz] at h
    cases hts : unpackBE TS st.timecnt (pySlice mem idx (idx + st.timecnt * TS)) with
    | none => rw [hts] at h; exact Except.noConfusion h
    | some ts =>
      cases htt : unpackBytes st.timecnt (pySlice mem (idx + st.timecnt * TS)
          (idx + st.timecnt * TS + st.timecnt)) with
      | none => rw [hts, htt] at h; exact Except.noConfusion h
      | some tt =>
        rw [hts, htt] at h
        injection h with h1
        injection h1 with ha hb
        exact ⟨hb.symm, Or.inr ⟨hz, ts, tt, unpackBE_some_length hts,
          unpackBytes_some_length htt, ha.symm⟩⟩

theorem rdbRecords_ok (st : TZState) (mem : Bytes) (idx : Nat)
    (h : idx + st.typecnt * 6 ≤ mem.length) :
    ∃ st1, rdbRecords st mem idx = .ok (st1, idx + st.typecnt * 6) ∧
      ((st.typecnt = 0 ∧ st1 = st) ∨
        (st.typecnt ≠ 0 ∧ ∃ rs, rs.length = st.typecnt ∧
          st1 = { st with local_time_type_records := some rs })) := by
  by_cases hz : st.typecnt = 0
  · exact ⟨st, by simp [rdbRecords, hz], Or.inl ⟨hz, rfl⟩⟩
  · have hl : (pySlice mem idx (idx + st.typecnt * 6)).length = st.typecnt * 6 := by
      rw [pySlice_length]; omega
    obtain ⟨rs, hrs⟩ : ∃ rs, unpackRecords st.typecnt
        (pySlice mem idx (idx + st.typecnt * 6)) = some rs :=
      ⟨_, by unfold unpackRecords; rw [if_pos hl]⟩
    refine ⟨{ st with local_time_type_records := some rs }, ?_,
      Or.inr ⟨hz, rs, unpackRecords_some_length hrs, rfl⟩⟩
    unfold rdbRecords
    rw [if_neg hz, hrs]

theorem rdbRecords_err (st : TZState) (mem : Bytes) (idx : Nat)
    (hnz : st.typecnt ≠ 0) (h : mem.length < idx + st.typecnt * 6) :
    rdbRecords st mem idx = .error .truncatedData := by
  have hs := pySlice_length mem idx (idx + st.typecnt * 6)
  have hl : (pySlice mem idx (idx + st.typecnt * 6)).length ≠ st.typecnt * 6 := by omega
  unfold rdbRecords unpackRecords
  rw [if_neg hnz, if_neg hl]

theorem rdbRecords_ok_inv {st : TZState} {mem : Bytes} {idx : Nat}
    {st1 : TZState} {i1 : Nat} (h : rdbRecords st mem idx = .ok (st1, i1)) :
    i1 = idx + st.typecnt * 6 ∧
    ((st.typecnt = 0 ∧ st1 = st) ∨
      (st.typecnt ≠ 0 ∧ ∃ rs, rs.length = st.typecnt ∧
        st1 = { st with local_time_type_records := some rs })) := by
  unfold rdbRecords at h
  by_cases hz : st.typecnt = 0
  · rw [if_pos hz] at h
    injection h with h1
    injection h1 with ha hb
    refine ⟨by omega, Or.inl ⟨hz, ha.symm⟩⟩
  · rw [if_neg hz] at h
    cases hrs : unpackRecords st.typecnt (pySlice mem idx (idx + st.typecnt * 6)) with
    | none => rw [hrs] at h; exact Except.noConfusion h
    | some rs =>
      rw [hrs] at h
      injection h with h1
      injection h1 with ha hb
      exact ⟨hb.symm, Or.inr ⟨hz, rs, unpackRecords_some_length hrs, ha.symm⟩⟩

theorem rdbChars_eq (st : TZState) (mem : Bytes) (idx : Nat) :
    rdbChars st mem idx =
      ((if st.charcnt = 0 then st
        else { st with
          time_zone_designations := some (pySlice mem idx (idx + st.charcnt)) }),
        idx + st.charcnt) := by
  by_cases hz : st.charcnt = 0 <;> simp [rdbChars, hz]

theorem rdbLeaps_ok (TS : Nat) (st : TZState) (mem : Bytes) (idx : Nat)
    (h : idx + st.leapcnt * (TS + 4) ≤ mem.length) :
    ∃ st1, rdbLeaps TS st mem idx = .ok (st1, idx + st.leapcnt * (TS + 4)) ∧
      ((st.leapcnt = 0 ∧ st1 = st) ∨
        (st.leapcnt ≠ 0 ∧ ∃ ls, ls.length = st.leapcnt ∧
          st1 = { st with leap_seconds_records := some ls })) := by
  by_cases hz : st.leapcnt = 0
  · exact ⟨st, by simp [rdbLeaps, hz], Or.inl ⟨hz, rfl⟩⟩
  · have hl : (pySlice mem idx (idx + st.leapcnt * (TS + 4))).length
        = st.leapcnt * (TS + 4) := by
      rw [pySlice_length]; omega
    obtain ⟨ls, hls⟩ : ∃ ls, unpackLeaps TS st.leapcnt
        (pySlice mem idx (idx + st.leapcnt * (TS + 4))) = some ls :=
      ⟨_, by unfold unpackLeaps; rw [if_pos hl]⟩
    refine ⟨{ st with leap_seconds_records := some ls }, ?_,
      Or.inr ⟨hz, ls, unpackLeaps_some_length hls, rfl⟩⟩
    unfold rdbLeaps
    rw [if_neg hz, hls]

theorem rdbLeaps_err (TS : Nat) (st : TZState) (mem : Bytes) (idx : Nat)
    (hnz : st.leapcnt ≠ 0) (h : mem.length < idx + st.leapcnt * (TS + 4)) :
    rdbLeaps TS st mem idx = .error .truncatedData := by
  have hs := pySlice_length mem idx (idx + st.leapcnt * (TS + 4))
  have hp : 0 < st.leapcnt * (TS + 4) :=
    Nat.mul_pos (Nat.pos_of_ne_zero hnz) (by omega)
  have hl : (pySlice mem idx (idx + st.leapcnt * (TS + 4))).length
      ≠ st.leapcnt * (TS + 4) := by omega
  unfold rdbLeaps unpackLeaps
  rw [if_neg hnz, if_neg hl]

theorem rdbLeaps_ok_inv {TS : Nat} {st : TZState} {mem : Bytes} {idx : Nat}
    {st1 : TZState} {i1 : Nat} (h : rdbLeaps TS st mem idx = .ok (st1, i1)) :
    i1 = idx + st.leapcnt * (TS + 4) ∧
    ((st.leapcnt = 0 ∧ st1 = st) ∨
      (st.leapcnt ≠ 0 ∧ ∃ ls, ls.length = st.leapcnt ∧
        st1 = { st with leap_seconds_records := some ls })) := by
  unfold rdbLeaps at h
  by_cases hz : st.leapcnt = 0
  · rw [if_pos hz] at h
    injection h with h1
    injection h1 with ha hb
    refine ⟨by rw [hz]; simpa using hb.symm, Or.inl ⟨hz, ha.symm⟩⟩
  · rw [if_neg hz] at h
    cases hls : unpackLeaps TS st.leapcnt
        (pySlice mem idx (idx + st.leapcnt * (TS + 4))) with
    | none => rw [hls] at h; exact Except.noConfusion h
    | some ls =>
      rw [hls] at h
      injection h with h1
      injection h1 with ha hb
      exact ⟨hb.symm, Or.inr ⟨hz, ls, unpackLeaps_some_length hls, ha.symm⟩⟩

theorem rdbStd_ok (st : TZState) (mem : Bytes) (idx : Nat)
    (h : idx + st.isstdcnt ≤ mem.length) :
    ∃ st1, rdbStd st mem idx = .ok (st1, idx + st.isstdcnt) ∧
      ((st.isstdcnt = 0 ∧ st1 = st) ∨
        (st.isstdcnt ≠ 0 ∧ ∃ xs, xs.length = st.isstdcnt ∧
          st1 = { st with standard_wall_indicators := some xs })) := by
  by_cases hz : st.isstdcnt = 0
  · exact ⟨st, by simp [rdbStd, hz], Or.inl ⟨hz, rfl⟩⟩
  · have hl : (pySlice mem idx (idx + st.isstdcnt)).length = st.isstdcnt := by
      rw [pySlice_length]; omega
    obtain ⟨xs, hxs⟩ : ∃ xs, unpackBytes st.isstdcnt
        (pySlice mem idx (idx + st.isstdcnt)) = some xs :=
      ⟨_, by unfold unpackBytes; rw [if_pos hl]⟩
    refine ⟨{ st with standard_wall_indicators := some xs }, ?_,
      Or.inr ⟨hz, xs, unpackBytes_some_length hxs, rfl⟩⟩
    unfold rdbStd
    rw [if_neg hz, hxs]

theorem rdbStd_err (st : TZState) (mem : Bytes) (idx : Nat)
    (hnz : st.isstdcnt ≠ 0) (h : mem.length < idx + st.isstdcnt) :
    rdbStd st mem idx = .error .truncatedData := by
  have hs := pySlice_length mem idx (idx + st.isstdcnt)
  have hl : (pySlice mem idx (idx + st.isstdcnt)).length ≠ st.isstdcnt := by omega
  unfold rdbStd unpackBytes
  rw [if_neg hnz, if_neg hl]

theorem rdbStd_ok_inv {st : TZState} {mem : Bytes} {idx : Nat}
    {st1 : TZState} {i1 : Nat} (h : rdbStd st mem idx = .ok (st1, i1)) :
    i1 = idx + st.isstdcnt ∧
    ((st.isstdcnt = 0 ∧ st1 = st) ∨
      (st.isstdcnt ≠ 0 ∧ ∃ xs, xs.length = st.isstdcnt ∧
        st1 = { st with standard_wall_indicators := some xs })) := by
  unfold rdbStd at h
  by_cases hz : st.isstdcnt = 0
  · rw [if_pos hz] at h
    injection h with h1
    injection h1 with ha hb
    refine ⟨by omega, Or.inl ⟨hz, ha.symm⟩⟩
  · rw [if_neg hz] at h
    cases hxs : unpackBytes st.isstdcnt (pySlice mem idx (idx + st.isstdcnt)) with
    | none => rw [hxs] at h; exact Except.noConfusion h
    | some xs =>
      rw [hxs] at h
      injection h with h1
      injection h1 with ha hb
      exact ⟨hb.symm, Or.inr ⟨hz, xs, unpackBytes_some_length hxs, ha.symm⟩⟩

theorem rdbUt_ok (st : TZState) (mem : Bytes) (idx : Nat)
    (h : idx + st.isutcnt ≤ mem.length) :
    ∃ st1, rdbUt st mem idx = .ok (st1, idx + st.isutcnt) ∧
      ((st.isutcnt = 0 ∧ st1 = st) ∨
        (st.isutcnt ≠ 0 ∧ ∃ xs, xs.length = st.isutcnt ∧
          st1 = { st with ut_local_indicators := some xs })) := by
  by_cases hz : st.isutcnt = 0
  · exact ⟨st, by simp [rdbUt, hz], Or.inl ⟨hz, rfl⟩⟩
  · have hl : (pySlice mem idx (idx + st.isutcnt)).length = st.isutcnt := by
      rw [pySlice_length]; omega
    obtain ⟨xs, hxs⟩ : ∃ xs, unpackBytes st.isutcnt
        (pySlice mem idx (idx + st.isutcnt)) = some xs :=
      ⟨_, by unfold unpackBytes; rw [if_pos hl]⟩
    refine ⟨{ st with ut_local_indicators := some xs }, ?_,
      Or.inr ⟨hz, xs, unpackBytes_some_length hxs, rfl⟩⟩
    unfold rdbUt
    rw [if_neg hz, hxs]

theorem rdbUt_err (st : TZState) (mem : Bytes) (idx : Nat)
    (hnz : st.isutcnt ≠ 0) (h : mem.length < idx + st.isutcnt) :
    rdbUt st mem idx = .error .truncatedData := by
  have hs := pySlice_length mem idx (idx + st.isutcnt)
  have hl : (pySlice mem idx (idx + st.isutcnt)).length ≠ st.isutcnt := by omega
  unfold rdbUt unpackBytes
  rw [if_neg hnz, if_neg hl]

theorem rdbUt_ok_inv {st : TZState} {mem : Bytes} {idx : Nat}
    {st1 : TZState} {i1 : Nat} (h : rdbUt st mem idx = .ok (st1, i1)) :
    (st.isutcnt = 0 ∧ st1 = st) ∨
      (st.isutcnt ≠ 0 ∧ ∃ xs, xs.length = st.isutcnt ∧
        st1 = { st with ut_local_indicators := some xs }) := by
  unfold rdbUt at h
  by_cases hz : st.isutcnt = 0
  · rw [if_pos hz] at h
    injection h with h1
    injection h1 with ha hb
    exact Or.inl ⟨hz, ha.symm⟩
  · rw [if_neg hz] at h
    cases hxs : unpackBytes st.isutcnt (pySlice mem idx (idx + st.isutcnt)) with
    | none => rw [hxs] at h; exact Except.noConfusion h
    | some xs =>
      rw [hxs] at h
      injection h with h1
      injection h1 with ha hb
      exact Or.inr ⟨hz, xs, unpackBytes_some_length hxs, ha.symm⟩

theorem rdbTimesTypes_preserves {TS : Nat} {st : TZState} {mem : Bytes} {idx : Nat}
    {st1 : TZState} {i1 : Nat} (h : rdbTimesTypes TS st mem idx = .ok (st1, i1)) :
    st1.version = st.version ∧ st1.isutcnt = st.isutcnt ∧ st1.isstdcnt = st.isstdcnt ∧
    st1.leapcnt = st.leapcnt ∧ st1.timecnt = st.timecnt ∧ st1.typecnt = st.typecnt ∧
    st1.charcnt = st.charcnt ∧
    st1.local_time_type_records = st.local_time_type_records ∧
    st1.time_zone_designations = st.time_zone_designations ∧
    st1.leap_seconds_records = st.leap_seconds_records ∧
    st1.standard_wall_indicators = st.standard_wall_indicators ∧
    st1.ut_local_indicators = st.ut_local_indicators ∧
    st1.tz_strings = st.tz_strings ∧
    (st.timecnt = 0 → st1 = st) := by
  obtain ⟨-, d⟩ := rdbTimesTypes_ok_inv h
  rcases d with ⟨hz, rfl⟩ | ⟨hn, ts, tt, hts, htt, rfl⟩
  · exact ⟨rfl, rfl, rfl, rfl, rfl, rfl, rfl, rfl, rfl, rfl, rfl, rfl, rfl, fun _ => rfl⟩
  · exact ⟨rfl, rfl, rfl, rfl, rfl, rfl, rfl, rfl, rfl, rfl, rfl, rfl, rfl,
      fun hzz => absurd hzz hn⟩

theorem rdbRecords_preserves {st : TZState} {mem : Bytes} {idx : Nat}
    {st1 : TZState} {i1 : Nat} (h : rdbRecords st mem idx = .ok (st1, i1)) :
    st1.version = st.version ∧ st1.isutcnt = st.isutcnt ∧ st1.isstdcnt = st.isstdcnt ∧
    st1.leapcnt = st.leapcnt ∧ st1.timecnt = st.timecnt ∧ st1.typecnt = st.typecnt ∧
    st1.charcnt = st.charcnt ∧
    st1.transition_times = st.transition_times ∧
    st1.transition_types = st.transition_types ∧
    st1.time_zone_designations = st.time_zone_designations ∧
    st1.leap_seconds_records = st.leap_seconds_records ∧
    st1.standard_wall_indicators = st.standard_wall_indicators ∧
    st1.ut_local_indicators = st.ut_local_indicators ∧
    st1.tz_strings = st.tz_strings ∧
    (st.typecnt = 0 → st1 = st) := by
  obtain ⟨-, d⟩ := rdbRecords_ok_inv h
  rcases d with ⟨hz, rfl⟩ | ⟨hn, rs, hrs, rfl⟩
  · exact ⟨rfl, rfl, rfl, rfl, rfl, rfl, rfl, rfl, rfl, rfl, rfl, rfl, rfl, rfl, fun _ => rfl⟩
  · exact ⟨rfl, rfl, rfl, rfl, rfl, rfl, rfl, rfl, rfl, rfl, rfl, rfl, rfl, rfl,
      fun hzz => absurd hzz hn⟩

theorem rdbChars_fst_facts (st : TZState) (mem : Bytes) (idx : Nat) :
    (rdbChars st mem idx).1.version = st.version ∧
    (rdbChars st mem idx).1.isutcnt = st.isutcnt ∧
    (rdbChars st mem idx).1.isstdcnt = st.isstdcnt ∧
    (rdbChars st mem idx).1.leapcnt = st.leapcnt ∧
    (rdbChars st mem idx).1.timecnt = st.timecnt ∧
    (rdbChars st mem idx).1.typecnt = st.typecnt ∧
    (rdbChars st mem idx).1.charcnt = st.charcnt ∧
    (rdbChars st mem idx).1.transition_times = st.transition_times ∧
    (rdbChars st mem idx).1.transition_types = st.transition_types ∧
    (rdbChars st mem idx).1.local_time_type_records = st.local_time_type_records ∧
    (rdbChars st mem idx).1.leap_seconds_records = st.leap_seconds_records ∧
    (rdbChars st mem idx).1.standard_wall_indicators = st.standard_wall_indicators ∧
    (rdbChars st mem idx).1.ut_local_indicators = st.ut_local_indicators ∧
    (rdbChars st mem idx).1.tz_strings = st.tz_strings ∧
    (rdbChars st mem idx).2 = idx + st.charcnt ∧
    (st.charcnt = 0 → (rdbChars st mem idx).1 = st) := by
  by_cases hz : st.charcnt = 0 <;> simp [rdbChars, hz]

theorem rdbLeaps_preserves {TS : Nat} {st : TZState} {mem : Bytes} {idx : Nat}
    {st1 : TZState} {i1 : Nat} (h : rdbLeaps TS st mem idx = .ok (st1, i1)) :
    st1.version = st.version ∧ st1.isutcnt = st.isutcnt ∧ st1.isstdcnt = st.isstdcnt ∧
    st1.leapcnt = st.leapcnt ∧ st1.timecnt = st.timecnt ∧ st1.typecnt = st.typecnt ∧
    st1.charcnt = st.charcnt ∧
    st1.transition_times = st.transition_times ∧
    st1.transition_types = st.transition_types ∧
    st1.local_time_type_records = st.local_time_type_records ∧
    st1.time_zone_designations = st.time_zone_designations ∧
    st1.standard_wall_indicators = st.standard_wall_indicators ∧
    st1.ut_local_indicators = st.ut_local_indicators ∧
    st1.tz_strings = st.tz_strings ∧
    (st.leapcnt = 0 → st1 = st) := by
  obtain ⟨-, d⟩ := rdbLeaps_ok_inv h
  rcases d with ⟨hz, rfl⟩ | ⟨hn, ls, hls, rfl⟩
  · exact ⟨rfl, rfl, rfl, rfl, rfl, rfl, rfl, rfl, rfl, rfl, rfl, rfl, rfl, rfl, fun _ => rfl⟩
  · exact ⟨rfl, rfl, rfl, rfl, rfl, rfl, rfl, rfl, rfl, rfl, rfl, rfl, rfl, rfl,
      fun hzz => absurd hzz hn⟩

theorem rdbStd_preserves {st : TZState} {mem : Bytes} {idx : Nat}
    {st1 : TZState} {i1 : Nat} (h : rdbStd st mem idx = .ok (st1, i1)) :
    st1.version = st.version ∧ st1.isutcnt = st.isutcnt ∧ st1.isstdcnt = st.isstdcnt ∧
    st1.leapcnt = st.leapcnt ∧ st1.timecnt = st.timecnt ∧ st1.typecnt = st.typecnt ∧
    st1.charcnt = st.charcnt ∧
    st1.transition_times = st.transition_times ∧
    st1.transition_types = st.transition_types ∧
    st1.local_time_type_records = st.local_time_type_records ∧
    st1.time_zone_designations = st.time_zone_designations ∧
    st1.leap_seconds_records = st.leap_seconds_records ∧
    st1.ut_local_indicators = st.ut_local_indicators ∧
    st1.tz_strings = st.tz_strings ∧
    (st.isstdcnt = 0 → st1 = st) := by
  obtain ⟨-, d⟩ := rdbStd_ok_inv h
  rcases d with ⟨hz, rfl⟩ | ⟨hn, xs, hxs, rfl⟩
  · exact ⟨rfl, rfl, rfl, rfl, rfl, rfl, rfl, rfl, rfl, rfl, rfl, rfl, rfl, rfl, fun _ => rfl⟩
  · exact ⟨rfl, rfl, rfl, rfl, rfl, rfl, rfl, rfl, rfl, rfl, rfl, rfl, rfl, rfl,
      fun hzz => absurd hzz hn⟩

theorem rdbUt_preserves {st : TZState} {mem : Bytes} {idx : Nat}
    {st1 : TZState} {i1 : Nat} (h : rdbUt st mem idx = .ok (st1, i1)) :
    st1.version = st.version ∧ st1.isutcnt = st.isutcnt ∧ st1.isstdcnt = st.isstdcnt ∧
    st1.leapcnt = st.leapcnt ∧ st1.timecnt = st.timecnt ∧ st1.typecnt = st.typecnt ∧
    st1.charcnt = st.charcnt ∧
    st1.transition_times = st.transition_times ∧
    st1.transition_types = st.transition_types ∧
    st1.local_time_type_records = st.local_time_type_records ∧
    st1.time_zone_designations = st.time_zone_designations ∧
    st1.leap_seconds_records = st.leap_seconds_records ∧
    st1.standard_wall_indicators = st.standard_wall_indicators ∧
    st1.tz_strings = st.tz_strings ∧
    (st.isutcnt = 0 → st1 = st) := by
  obtain d := rdbUt_ok_inv h
  rcases d with ⟨hz, rfl⟩ | ⟨hn, xs, hxs, rfl⟩
  · exact ⟨rfl, rfl, rfl, rfl, rfl, rfl, rfl, rfl, rfl, rfl, rfl, rfl, rfl, rfl, fun _ => rfl⟩
  · exact ⟨rfl, rfl, rfl, rfl, rfl, rfl, rfl, rfl, rfl, rfl, rfl, rfl, rfl, rfl,
      fun hzz => absurd hzz hn⟩

theorem rdbTail_ok (TS : Nat) (st : TZState) (mem : Bytes) (idx : Nat)
    (h : idx + st.leapcnt * (TS + 4) + st.isstdcnt + st.isutcnt ≤ mem.length) :
    ∃ st', rdbTail TS st mem idx = .ok st' ∧
      st'.transition_times = st.transition_times ∧
      st'.transition_types = st.transition_types ∧
      st'.local_time_type_records = st.local_time_type_records ∧
      st'.time_zone_designations = st.time_zone_designations ∧
      st'.tz_strings = st.tz_strings ∧
      st'.timecnt = st.timecnt ∧ st'.typecnt = st.typecnt ∧
      (st.leapcnt = 0 → st'.leap_seconds_records = st.leap_seconds_records) ∧
      (st.isstdcnt = 0 → st'.standard_wall_indicators = st.standard_wall_indicators) ∧
      (st.isutcnt = 0 → st'.ut_local_indicators = st.ut_local_indicators) := by
  obtain ⟨st4, e4, -⟩ := rdbLeaps_ok TS st mem idx (by omega)
  obtain ⟨v4, iu4, is4, lc4, tc4, ty4, cc4, a4, b4, c4, d4, sw4, ul4, tz4, z4⟩ :=
    rdbLeaps_preserves e4
  obtain ⟨st5, e5, -⟩ := rdbStd_ok st4 mem (idx + st.leapcnt * (TS + 4))
    (by rw [is4]; omega)
  obtain ⟨v5, iu5, is5, lc5, tc5, ty5, cc5, a5, b5, c5, d5, lp5, ul5, tz5, z5⟩ :=
    rdbStd_preserves e5
  obtain ⟨st6, e6, -⟩ := rdbUt_ok st5 mem
    (idx + st.leapcnt * (TS + 4) + st4.isstdcnt) (by rw [iu5, iu4, is4]; omega)
  obtain ⟨v6, iu6, is6, lc6, tc6, ty6, cc6, a6, b6, c6, d6, lp6, sw6, tz6, z6⟩ :=
    rdbUt_preserves e6
  refine ⟨st6, ?_, by rw [a6, a5, a4], by rw [b6, b5, b4], by rw [c6, c5, c4],
    by rw [d6, d5, d4], by rw [tz6, tz5, tz4], by rw [tc6, tc5, tc4],
    by rw [ty6, ty5, ty4],
    fun hz => by rw [lp6, lp5, z4 hz],
    fun hz => by rw [sw6, z5 (is4.trans hz), sw4],
    fun hz => by rw [z6 (iu5.trans (iu4.trans hz)), ul5, ul4]⟩
  simp only [rdbTail, e4, e5, e6, Except.map]

theorem rdbTail_err (TS : Nat) (st : TZState) (mem : Bytes) (idx : Nat)
    (hidx : idx ≤ mem.length)
    (h : mem.length < idx + st.leapcnt * (TS + 4) + st.isstdcnt + st.isutcnt) :
    rdbTail TS st mem idx = .error .truncatedData := by
  by_cases b4 : idx + st.leapcnt * (TS + 4) ≤ mem.length
  · obtain ⟨st4, e4, -⟩ := rdbLeaps_ok TS st mem idx b4
    obtain ⟨v4, iu4, is4, lc4, tc4, ty4, cc4, a4, b4f, c4, d4, sw4, ul4, tz4, z4⟩ :=
      rdbLeaps_preserves e4
    by_cases b5 : idx + st.leapcnt * (TS + 4) + st.isstdcnt ≤ mem.length
    · obtain ⟨st5, e5, -⟩ := rdbStd_ok st4 mem (idx + st.leapcnt * (TS + 4))
        (by rw [is4]; omega)
      obtain ⟨v5, iu5, is5, lc5, tc5, ty5, cc5, a5, b5f, c5, d5, lp5, ul5, tz5, z5⟩ :=
        rdbStd_preserves e5
      have hnzu : st5.isutcnt ≠ 0 := by rw [iu5, iu4]; intro hz; omega
      have herr := rdbUt_err st5 mem (idx + st.leapcnt * (TS + 4) + st4.isstdcnt)
        hnzu (by rw [iu5, iu4, is4]; omega)
      simp only [rdbTail, e4, e5, herr, Except.map]
    · have hnzs : st4.isstdcnt ≠ 0 := by rw [is4]; intro hz; omega
      have herr := rdbStd_err st4 mem (idx + st.leapcnt * (TS + 4)) hnzs
        (by rw [is4]; omega)
      simp only [rdbTail, e4, herr]
  · have hnzl : st.leapcnt ≠ 0 := by
      intro hz
      apply b4
      rw [hz]
      simpa using hidx
    have herr := rdbLeaps_err TS st mem idx hnzl (by omega)
    simp only [rdbTail, herr]

theorem rdbTail_ok_inv {TS : Nat} {st : TZState} {mem : Bytes} {idx : Nat}
    {st' : TZState} (h : rdbTail TS st mem idx = .ok st') :
    st'.transition_times = st.transition_times ∧
    st'.transition_types = st.transition_types ∧
    st'.local_time_type_records = st.local_time_type_records ∧
    st'.timecnt = st.timecnt ∧ st'.typecnt = st.typecnt := by
  unfold rdbTail at h
  split at h
  · exact Except.noConfusion h
  next st4 i4 heq4 =>
    split at h
    · exact Except.noConfusion h
    next st5 i5 heq5 =>
      cases hu : rdbUt st5 mem i5 with
      | error e => rw [hu] at h; exact Except.noConfusion h
      | ok p =>
        rw [hu] at h
        simp only [Except.map] at h
        obtain ⟨v4, iu4, is4, lc4, tc4, ty4, cc4, a4, b4, c4, d4, sw4, ul4, tz4, z4⟩ :=
          rdbLeaps_preserves heq4
        obtain ⟨v5, iu5, is5, lc5, tc5, ty5, cc5, a5, b5, c5, d5, lp5, ul5, tz5, z5⟩ :=
          rdbStd_preserves heq5
        obtain ⟨v6, iu6, is6, lc6, tc6, ty6, cc6, a6, b6, c6, d6, lp6, sw6, tz6, z6⟩ :=
          rdbUt_preserves (show rdbUt st5 mem i5 = .ok (p.1, p.2) from hu)
        injection h with h1
        rw [← h1]
        exact ⟨by rw [a6, a5, a4], by rw [b6, b5, b4], by rw [c6, c5, c4],
          by rw [tc6, tc5, tc4], by rw [ty6, ty5, ty4]⟩

theorem read_data_block_w_ok (TS : Nat) (st : TZState) (mem : Bytes)
    (h : st.timecnt * TS + st.timecnt + st.typecnt * 6 + st.charcnt
      + st.leapcnt * (TS + 4) + st.isstdcnt + st.isutcnt ≤ mem.length) :
    ∃ st', read_data_block_w TS st mem = .ok st' ∧
      (st.timecnt = 0 → st'.transition_times = st.transition_times ∧
        st'.transition_types = st.transition_types) ∧
      (st.typecnt = 0 → st'.local_time_type_records = st.local_time_type_records) ∧
      (st.charcnt = 0 → st'.time_zone_designations = st.time_zone_designations) ∧
      (st.leapcnt = 0 → st'.leap_seconds_records = st.leap_seconds_records) ∧
      (st.isstdcnt = 0 → st'.standard_wall_indicators = st.standard_wall_indicators) ∧
      (st.isutcnt = 0 → st'.ut_local_indicators = st.ut_local_indicators) := by
  obtain ⟨st1, e1, -⟩ := rdbTimesTypes_ok TS st mem 0 (by omega)
  obtain ⟨v1, iu1, is1, lc1, tc1, ty1, cc1, c1, d1, l1, s1, u1, tz1, z1⟩ :=
    rdbTimesTypes_preserves e1
  obtain ⟨st2, e2, -⟩ := rdbRecords_ok st1 mem (0 + st.timecnt * TS + st.timecnt)
    (by rw [ty1]; omega)
  obtain ⟨v2, iu2, is2, lc2, tc2, ty2, cc2, a2, b2, d2, l2, s2, u2, tz2, z2⟩ :=
    rdbRecords_preserves e2
  obtain ⟨vh, iuh, ish, lch, tch, tyh, cch, ah, bh, ch, lh, sh, uh, tzh, sndh, zh⟩ :=
    rdbChars_fst_facts st2 mem (0 + st.timecnt * TS + st.timecnt + st1.typecnt * 6)
  obtain ⟨st', etail, ta, tb, tc, td, ttz, ttc, tty, tl, ts, tu⟩ :=
    rdbTail_ok TS
      (rdbChars st2 mem (0 + st.timecnt * TS + st.timecnt + st1.typecnt * 6)).1 mem
      (rdbChars st2 mem (0 + st.timecnt * TS + st.timecnt + st1.typecnt * 6)).2
      (by rw [sndh, lch, lc2, lc1, ish, is2, is1, iuh, iu2, iu1, cc2, cc1, ty1]; omega)
  refine ⟨st', ?_,
    fun hz => ⟨by rw [ta, ah, a2, z1 hz], by rw [tb, bh, b2, z1 hz]⟩,
    fun hz => by rw [tc, ch, z2 (ty1.trans hz), c1],
    fun hz => by rw [td, zh (cc2.trans (cc1.trans hz)), d2, d1],
    fun hz => by rw [tl (lch.trans (lc2.trans (lc1.trans hz))), lh, l2, l1],
    fun hz => by rw [ts (ish.trans (is2.trans (is1.trans hz))), sh, s2, s1],
    fun hz => by rw [tu (iuh.trans (iu2.trans (iu1.trans hz))), uh, u2, u1]⟩
  simp only [read_data_block_w, e1, e2]
  exact etail

theorem read_data_block_w_err (TS : Nat) (st : TZState) (mem : Bytes)
    (hch : st.charcnt = 0)
    (h : mem.length < st.timecnt * TS + st.timecnt + st.typecnt * 6 + st.charcnt
      + st.leapcnt * (TS + 4) + st.isstdcnt + st.isutcnt) :
    read_data_block_w TS st mem = .error .truncatedData := by
  by_cases b1 : 0 + st.timecnt * TS + st.timecnt ≤ mem.length
  · obtain ⟨st1, e1, -⟩ := rdbTimesTypes_ok TS st mem 0 b1
    obtain ⟨v1, iu1, is1, lc1, tc1, ty1, cc1, c1, d1, l1, s1, u1, tz1, z1⟩ :=
      rdbTimesTypes_preserves e1
    by_cases b2 : 0 + st.timecnt * TS + st.timecnt + st.typecnt * 6 ≤ mem.length
    · obtain ⟨st2, e2, -⟩ := rdbRecords_ok st1 mem (0 + st.timecnt * TS + st.timecnt)
        (by rw [ty1]; omega)
      obtain ⟨v2, iu2, is2, lc2, tc2, ty2, cc2, a2, b2f, d2, l2, s2, u2, tz2, z2⟩ :=
        rdbRecords_preserves e2
      obtain ⟨vh, iuh, ish, lch, tch, tyh, cch, ah, bh, ch, lh, sh, uh, tzh, sndh, zh⟩ :=
        rdbChars_fst_facts st2 mem (0 + st.timecnt * TS + st.timecnt + st1.typecnt * 6)
      have htail := rdbTail_err TS
        (rdbChars st2 mem (0 + st.timecnt * TS + st.timecnt + st1.typecnt * 6)).1 mem
        (rdbChars st2 mem (0 + st.timecnt * TS + st.timecnt + st1.typecnt * 6)).2
        (by rw [sndh, cc2, cc1, hch, ty1]; omega)
        (by rw [sndh, lch, lc2, lc1, ish, is2, is1, iuh, iu2, iu1, cc2, cc1, ty1]; omega)
      simp only [read_data_block_w, e1, e2]
      exact htail
    · have hnz2 : st1.typecnt ≠ 0 := by rw [ty1]; intro hz; omega
      have herr := rdbRecords_err st1 mem (0 + st.timecnt * TS + st.timecnt) hnz2
        (by rw [ty1]; omega)
      simp only [read_data_block_w, e1, herr]
  · have hnz1 : st.timecnt ≠ 0 := by
      intro hz
      rw [hz] at b1
      simp at b1
    have herr := rdbTimesTypes_err TS st mem 0 hnz1 (by omega)
    simp only [read_data_block_w, herr]

theorem read_data_block_w_ok_inv {TS : Nat} {st : TZState} {mem : Bytes}
    {st' : TZState} (h : read_data_block_w TS st mem = .ok st') :
    st'.timecnt = st.timecnt ∧ st'.typecnt = st.typecnt ∧
    (st.timecnt = 0 → st'.transition_times = st.transition_times ∧
      st'.transition_types = st.transition_types) ∧
    (st.timecnt ≠ 0 → (∃ ts, st'.transition_times = some ts ∧ ts.length = st.timecnt) ∧
      (∃ tt, st'.transition_types = some tt ∧ tt.length = st.timecnt)) ∧
    (st.typecnt = 0 → st'.local_time_type_records = st.local_time_type_records) ∧
    (st.typecnt ≠ 0 → ∃ rs, st'.local_time_type_records = some rs ∧
      rs.length = st.typecnt) := by
  unfold read_data_block_w at h
  split at h
  · exact Except.noConfusion h
  next st1 i1 heq1 =>
    split at h
    · exact Except.noConfusion h
    next st2 i2 heq2 =>
      obtain ⟨ta, tb, tc, ttc, tty⟩ := rdbTail_ok_inv h
      obtain ⟨vh, iuh, ish, lch, tch, tyh, cch, ah, bh, ch, lh, sh, uh, tzh, sndh, zh⟩ :=
        rdbChars_fst_facts st2 mem i2
      obtain ⟨-, d1⟩ := rdbTimesTypes_ok_inv heq1
      obtain ⟨-, d2⟩ := rdbRecords_ok_inv heq2
      obtain ⟨v1, iu1, is1, lc1, tc1, ty1, cc1, c1, dd1, l1, s1, u1, tz1, z1⟩ :=
        rdbTimesTypes_preserves heq1
      obtain ⟨v2, iu2, is2, lc2, tc2, ty2, cc2, a2, b2, dd2, l2, s2, u2, tz2, z2⟩ :=
        rdbRecords_preserves heq2
      refine ⟨by rw [ttc, tch, tc2, tc1], by rw [tty, tyh, ty2, ty1], ?_, ?_, ?_, ?_⟩
      · intro hz
        exact ⟨by rw [ta, ah, a2, z1 hz], by rw [tb, bh, b2, z1 hz]⟩
      · intro hnz
        rcases d1 with ⟨hz, -⟩ | ⟨-, ts, tt, hts, htt, hst1⟩
        · exact absurd hz hnz
        · constructor
          · refine ⟨ts, ?_, hts⟩
            rw [ta, ah, a2, hst1]
          · refine ⟨tt, ?_, htt⟩
            rw [tb, bh, b2, hst1]
      · intro hz
        rw [tc, ch, z2 (ty1.trans hz), c1]
      · intro hnz
        rcases d2 with ⟨hz, -⟩ | ⟨-, rs, hrs, hst2⟩
        · exact absurd hz (fun c => hnz (ty1.symm.trans c))
        · refine ⟨rs, ?_, by rw [hrs, ty1]⟩
          rw [tc, ch, hst2]

theorem active_data_block_len_eq (st : TZState) :
    active_data_block_len st =
      st.timecnt * (if pyEq st.version (.int 0) then 4 else 8) + st.timecnt
        + st.typecnt * 6 + st.charcnt
        + st.leapcnt * ((if pyEq st.version (.int 0) then 4 else 8) + 4)
        + st.isstdcnt + st.isutcnt := by
  by_cases hv : pyEq st.version (.int 0) = true
  · simp only [active_data_block_len, if_pos hv]
    rfl
  · simp only [active_data_block_len, if_neg hv]
    rfl

/-- C7 amended: read_data_block succeeds on any region at least as long
as the computed data-block length for the active width, leaving every
zero-count field untouched (hence absent when parsing starts from a
fresh document); a shorter region fails with TruncatedData provided
charcnt is zero — the raw designation slice is taken without a length
check, so a shortfall confined to it does not fail (the
counterexample). -/
theorem c7_truncation (st : TZState) (mem : Bytes) :
    (active_data_block_len st ≤ mem.length →
      ∃ st', read_data_block st mem = .ok st' ∧
        (st.timecnt = 0 → st'.transition_times = st.transition_times ∧
          st'.transition_types = st.transition_types) ∧
        (st.typecnt = 0 → st'.local_time_type_records = st.local_time_type_records) ∧
        (st.charcnt = 0 → st'.time_zone_designations = st.time_zone_designations) ∧
        (st.leapcnt = 0 → st'.leap_seconds_records = st.leap_seconds_records) ∧
        (st.isstdcnt = 0 → st'.standard_wall_indicators = st.standard_wall_indicators) ∧
        (st.isutcnt = 0 → st'.ut_local_indicators = st.ut_local_indicators)) ∧
    (mem.length < active_data_block_len st → st.charcnt = 0 →
      read_data_block st mem = .error .truncatedData) := by
  have hL := active_data_block_len_eq st
  constructor
  · intro hle
    rw [hL] at hle
    exact read_data_block_w_ok _ st mem hle
  · intro hlt hch
    rw [hL] at hlt
    exact read_data_block_w_err _ st mem hch hlt

/-- Witness for c7_truncation at concrete states: a state needing 9
bytes fails on the empty region, and a state needing 0 bytes succeeds
on it. -/
theorem c7_truncation_witness :
    read_data_block stC7short [] = .error .truncatedData ∧
    (read_data_block stC7zero []).isOk = true := by
  constructor
  · exact (c7_truncation stC7short []).2 (by decide) (by decide)
  · obtain ⟨st', heq, -⟩ := (c7_truncation stC7zero []).1 (by decide)
    rw [heq]
    rfl

/-- C6 amended: every successfully parsed document satisfies the length
invariants (reading an absent array as empty): the decoded transition
times and types have length timecnt and the records have length typecnt.
The ordering invariant on transition times and the range invariants on
transition types and designation indices are not checked by the parser
and fail on c6_counterexample. -/
theorem c6_parsed_lengths (buf : Bytes) (st' : TZState)
    (h : read tzinit buf = .ok st') :
    (st'.transition_times.getD []).length = st'.timecnt ∧
    (st'.transition_types.getD []).length = st'.timecnt ∧
    (st'.local_time_type_records.getD []).length = st'.typecnt := by
  unfold read at h
  by_cases hb : 44 < buf.length
  case neg =>
    rw [if_neg hb] at h
    exact Except.noConfusion h
  rw [if_pos hb] at h
  split at h
  · exact Except.noConfusion h
  next st1 heq1 =>
    rw [read_header_ok_version_not_int _ _ _ heq1 0] at h
    simp only [Bool.false_eq_true, if_false] at h
    split at h
    · exact Except.noConfusion h
    next st2 heq2 =>
      split at h
      · exact Except.noConfusion h
      next st3 heq3 =>
        injection h with h1
        unfold read_data_block at heq3
        obtain ⟨itc, ity, iz, inz, rz, rnz⟩ := read_data_block_w_ok_inv heq3
        have ht2a : st2.transition_times = none := by
          rw [read_header_ok_inv _ _ _ heq2, read_header_ok_inv _ _ _ heq1]
          rfl
        have ht2b : st2.transition_types = none := by
          rw [read_header_ok_inv _ _ _ heq2, read_header_ok_inv _ _ _ heq1]
          rfl
        have ht2c : st2.local_time_type_records = none := by
          rw [read_header_ok_inv _ _ _ heq2, read_header_ok_inv _ _ _ heq1]
          rfl
        subst h1
        simp only [read_footer]
        refine ⟨?_, ?_, ?_⟩
        · by_cases hz : st2.timecnt = 0
          · rw [(iz hz).1, ht2a, itc, hz]
            rfl
          · obtain ⟨⟨ts, hts, hlen⟩, -⟩ := inz hz
            rw [hts, itc]
            simpa using hlen
        · by_cases hz : st2.timecnt = 0
          · rw [(iz hz).2, ht2b, itc, hz]
            rfl
          · obtain ⟨-, ⟨tt, htt, hlen⟩⟩ := inz hz
            rw [htt, itc]
            simpa using hlen
        · by_cases hz : st2.typecnt = 0
          · rw [rz hz, ht2c, ity, hz]
            rfl
          · obtain ⟨rs, hrs, hlen⟩ := rnz hz
            rw [hrs, ity]
            simpa using hlen

/-- Witness for c6_parsed_lengths at the concrete buffer bufC6, whose
parse result is docC6. -/
theorem c6_parsed_lengths_witness :
    (docC6.transition_times.getD []).length = docC6.timecnt ∧
    (docC6.transition_types.getD []).length = docC6.timecnt ∧
    (docC6.local_time_type_records.getD []).length = docC6.typecnt :=
  c6_parsed_lengths bufC6 docC6 (by decide)

/-- C4 amended: for the NONE sentinel (timecnt zero) every accessor
returns the literal 0 whatever records the document stores, and for a
negative transition index (the BEFORE_FIRST sentinel -1) with timecnt
nonzero every accessor fails the bounds assert with InvalidQuery; no
default local-time-type record is consulted in either case. -/
theorem c4_sentinel_behavior (st : TZState) (idx : Int) :
    (st.timecnt = 0 → get_transition_offset st idx = .ok 0 ∧
      get_transition_isdst st idx = .ok 0 ∧
      get_transition_desig_index st idx = .ok 0) ∧
    (st.timecnt ≠ 0 → idx < 0 →
      get_transition_offset st idx = .error .invalidQuery ∧
      get_transition_isdst st idx = .error .invalidQuery ∧
      get_transition_desig_index st idx = .error .invalidQuery) := by
  constructor
  · intro hz
    refine ⟨?_, ?_, ?_⟩ <;>
      simp [get_transition_offset, get_transition_isdst, get_transition_desig_index,
        get_local_time_type_field, get_local_time_type, hz]
  · intro hnz hneg
    have hcond : ¬(0 ≤ idx ∧ idx ≤ (st.timecnt : Int) - 1) := by
      intro hc
      omega
    refine ⟨?_, ?_, ?_⟩ <;>
      simp [get_transition_offset, get_transition_isdst, get_transition_desig_index,
        get_local_time_type_field, get_local_time_type, hnz, hcond]

/-- Witness for c4_sentinel_behavior at concrete documents. -/
theorem c4_sentinel_behavior_witness :
    get_transition_offset docC4none 5 = .ok 0 ∧
    get_transition_offset docC4 (-2) = .error .invalidQuery :=
  ⟨((c4_sentinel_behavior docC4none 5).1 rfl).1,
   ((c4_sentinel_behavior docC4 (-2)).2 (by decide) (by decide)).1⟩

theorem sorted_getD_lt (times : List Int) (hs : List.Sorted (· < ·) times)
    (i j : Nat) (hij : i < j) (hj : j < times.length) :
    times.getD i 0 < times.getD j 0 := by
  have hi : i < times.length := Nat.lt_trans hij hj
  rw [List.getD_eq_get times 0 hi, List.getD_eq_get times 0 hj]
  exact hs.rel_get_of_lt (Fin.mk_lt_mk.mpr hij)

theorem sorted_getD_le (times : List Int) (hs : List.Sorted (· < ·) times)
    (i j : Nat) (hij : i ≤ j) (hj : j < times.length) :
    times.getD i 0 ≤ times.getD j 0 := by
  rcases Nat.eq_or_lt_of_le hij with rfl | hlt
  · exact le_refl _
  · exact le_of_lt (sorted_getD_lt times hs i j hlt hj)

theorem search_spec : ∀ (fuel : Nat) (times : List Int) (t : Int) (b e : Nat),
    List.Sorted (· < ·) times →
    e - b < fuel → b ≤ e → e < times.length →
    times.getD b 0 ≤ t →
    t < times.getD (times.length - 1) 0 →
    (e < times.length - 1 → t < times.getD (e + 1) 0) →
    ∃ i : Nat, search_transition_index fuel times times.length t b e = (i : Int) ∧
      b ≤ i ∧ i ≤ e ∧ times.getD i 0 ≤ t ∧
      (i + 1 < times.length → t < times.getD (i + 1) 0) := by
  intro fuel
  induction fuel with
  | zero =>
    intro times t b e _ hf
    omega
  | succ fuel ih =>
    intro times t b e hs hf hbe he hbt htl het
    simp only [search_transition_index]
    rw [if_neg (not_le.mpr htl)]
    have h0b : times.getD 0 0 ≤ times.getD b 0 :=
      sorted_getD_le times hs 0 b (Nat.zero_le b) (by omega)
    rw [if_neg (not_lt.mpr (le_trans h0b hbt))]
    by_cases hb1 : b + 1 = e
    · rw [if_pos hb1]
      by_cases hte : t < times.getD e 0
      · rw [if_pos hte]
        exact ⟨b, rfl, le_refl b, by omega, hbt, fun _ => by rw [hb1]; exact hte⟩
      · rw [if_neg hte]
        exact ⟨e, rfl, by omega, le_refl e, not_lt.mp hte,
          fun h1 => het (by omega)⟩
    · rw [if_neg hb1]
      by_cases hbb : b = e
      · rw [if_pos hbb]
        refine ⟨b, rfl, le_refl b, by omega, hbt, fun h1 => ?_⟩
        rw [hbb]
        exact het (by omega)
      · rw [if_neg hbb]
        have hb2 : b + 2 ≤ e := by omega
        have hmid : b + 1 ≤ (b + e) / 2 ∧ (b + e) / 2 ≤ e - 1 := by omega
        by_cases htm : t < times.getD ((b + e) / 2) 0
        · rw [if_pos htm]
          obtain ⟨i, hieq, hbi, hie, hit, hnext⟩ :=
            ih times t b ((b + e) / 2 - 1) hs (by omega) (by omega) (by omega)
              hbt htl (fun h1 => by
                have hmm : (b + e) / 2 - 1 + 1 = (b + e) / 2 := by omega
                rw [hmm]
                exact htm)
          exact ⟨i, hieq, hbi, by omega, hit, hnext⟩
        · by_cases htm2 : times.getD ((b + e) / 2) 0 < t
          · rw [if_neg htm, if_pos htm2]
            obtain ⟨i, hieq, hbi, hie, hit, hnext⟩ :=
              ih times t ((b + e) / 2) e hs (by omega) (by omega) he
                (le_of_lt htm2) htl het
            exact ⟨i, hieq, by omega, hie, hit, hnext⟩
          · rw [if_neg htm, if_neg htm2]
            refine ⟨(b + e) / 2, rfl, by omega, by omega, not_lt.mp htm,
              fun h1 => ?_⟩
            have heq : times.getD ((b + e) / 2) 0 = t :=
              le_antisymm (not_lt.mp htm) (not_lt.mp htm2)
            rw [← heq]
            exact sorted_getD_lt times hs ((b + e) / 2) ((b + e) / 2 + 1)
              (by omega) h1

theorem search_fuel_stable : ∀ (f1 f2 : Nat) (times : List Int) (timecnt : Nat)
    (t : Int) (b e : Nat), b ≤ e → e - b < f1 → e - b < f2 →
    search_transition_index f1 times timecnt t b e
      = search_transition_index f2 times timecnt t b e := by
  intro f1
  induction f1 with
  | zero =>
    intro f2 times timecnt t b e hbe hf1 hf2
    omega
  | succ f1 ih =>
    intro f2 times timecnt t b e hbe hf1 hf2
    cases f2 with
    | zero => omega
    | succ f2 =>
      simp only [search_transition_index]
      split_ifs with hc1 hc2 hc3 hc4 hc5 hc6
      any_goals rfl
      · exact ih f2 times timecnt t b ((b + e) / 2 - 1) (by omega) (by omega)
          (by omega)
      · exact ih f2 times timecnt t ((b + e) / 2) e (by omega) (by omega)
          (by omega)

theorem search_depth_le : ∀ (k fuel : Nat) (times : List Int) (timecnt : Nat)
    (t : Int) (b e : Nat), b ≤ e → e - b < fuel → e - b ≤ 2 ^ k →
    search_depth fuel times timecnt t b e ≤ k := by
  intro k
  induction k with
  | zero =>
    intro fuel times timecnt t b e hbe hf h2
    have h2' : e - b ≤ 1 := by simpa using h2
    cases fuel with
    | zero => simp [search_depth]
    | succ fuel =>
      simp only [search_depth]
      split_ifs
      any_goals omega
  | succ k ihk =>
    intro fuel times timecnt t b e hbe hf h2
    have hp : (2 : Nat) ^ (k + 1) = 2 * 2 ^ k := by
      rw [pow_succ]
      omega
    rw [hp] at h2
    cases fuel with
    | zero => simp [search_depth]
    | succ fuel =>
      simp only [search_depth]
      split_ifs with hc1 hc2 hc3 hc4 hc5 hc6
      any_goals omega
      · have := ihk fuel times timecnt t b ((b + e) / 2 - 1) (by omega) (by omega)
          (by omega)
        omega
      · have := ihk fuel times timecnt t ((b + e) / 2) e (by omega) (by omega)
          (by omega)
        omega

/-- C3: over a strictly ascending transition table of length at least 1
(timecnt equal to the table length), the search returns the last index
when the timestamp is at or past the last transition; for any timestamp
at or past the first transition it returns the maximal index whose
transition time is at most the timestamp (strictly below the next
transition time when one exists); and searching for the exact value of
any entry returns the index of that entry. -/
theorem c3_search_correct (times : List Int) (t : Int)
    (hs : List.Sorted (· < ·) times) (hlen : 1 ≤ times.length) :
    (times.getD (times.length - 1) 0 ≤ t →
      get_transition_index times times.length t = (times.length : Int) - 1) ∧
    (times.getD 0 0 ≤ t →
      ∃ i : Nat, get_transition_index times times.length t = (i : Int) ∧
        i < times.length ∧ times.getD i 0 ≤ t ∧
        (∀ j, j < times.length → times.getD j 0 ≤ t → j ≤ i) ∧
        (i + 1 < times.length → t < times.getD (i + 1) 0)) ∧
    (∀ k, k < times.length →
      get_transition_index times times.length (times.getD k 0) = (k : Int)) := by
  have hnz : times.length ≠ 0 := by omega
  obtain ⟨n, hn⟩ := Nat.exists_eq_succ_of_ne_zero hnz
  have hfirst : ∀ t' : Int, times.getD (times.length - 1) 0 ≤ t' →
      get_transition_index times times.length t' = (times.length : Int) - 1 := by
    intro t' hge
    unfold get_transition_index
    rw [if_neg hnz, hn]
    simp only [search_transition_index]
    rw [if_pos (by rw [← hn]; exact hge)]
  have hmain : ∀ t' : Int, times.getD 0 0 ≤ t' →
      ∃ i : Nat, get_transition_index times times.length t' = (i : Int) ∧
        i < times.length ∧ times.getD i 0 ≤ t' ∧
        (∀ j, j < times.length → times.getD j 0 ≤ t' → j ≤ i) ∧
        (i + 1 < times.length → t' < times.getD (i + 1) 0) := by
    intro t' h0t
    by_cases hge : times.getD (times.length - 1) 0 ≤ t'
    · refine ⟨times.length - 1, ?_, by omega, hge, fun j hj _ => by omega,
        fun h1 => absurd h1 (by omega)⟩
      rw [hfirst t' hge]
      omega
    · have hlt : t' < times.getD (times.length - 1) 0 := not_le.mp hge
      obtain ⟨i, hieq, hbi, hie, hit, hnext⟩ :=
        search_spec times.length times t' 0 (times.length - 1) hs (by omega)
          (by omega) (by omega) h0t hlt (fun h => absurd h (by omega))
      refine ⟨i, ?_, by omega, hit, ?_, hnext⟩
      · unfold get_transition_index
        rw [if_neg hnz]
        exact hieq
      · intro j hj hjt
        by_contra hji
        have h1 : i + 1 < times.length := by omega
        have h2 : times.getD (i + 1) 0 ≤ times.getD j 0 :=
          sorted_getD_le times hs (i + 1) j (by omega) hj
        have h3 := hnext h1
        omega
  refine ⟨hfirst t, hmain t, ?_⟩
  intro k hk
  have h0k : times.getD 0 0 ≤ times.getD k 0 :=
    sorted_getD_le times hs 0 k (Nat.zero_le k) hk
  obtain ⟨i, hieq, hilen, hit, hmax, hnext⟩ := hmain (times.getD k 0) h0k
  have hki : k ≤ i := hmax k hk (le_refl _)
  have hik : i ≤ k := by
    by_contra hik
    have := sorted_getD_lt times hs k i (by omega) hilen
    omega
  have : i = k := by omega
  rw [hieq, this]

/-- Witness for c3_search_correct: searching the exact first entry of
the ascending table [-100, 100] returns index 0. -/
theorem c3_search_correct_witness :
    get_transition_index [(-100 : Int), 100] 2 (-100) = 0 :=
  (c3_search_correct [(-100 : Int), 100] 0 (by decide) (by decide)).2.2 0 (by decide)

/-- C9: the bisection terminates: its value is independent of the fuel
as soon as the fuel exceeds the initial interval length (every
recursive call strictly shrinks the interval), and the number of nested
recursive calls from the entry-point interval [0, timecnt-1] is at most
log2 of timecnt plus one. -/
theorem c9_search_depth (times : List Int) (t : Int) (timecnt : Nat)
    (h1 : 1 ≤ timecnt) :
    (∀ fuel, timecnt - 1 < fuel →
      search_transition_index fuel times timecnt t 0 (timecnt - 1)
        = search_transition_index timecnt times timecnt t 0 (timecnt - 1)) ∧
    search_depth timecnt times timecnt t 0 (timecnt - 1)
      ≤ Nat.log 2 timecnt + 1 := by
  constructor
  · intro fuel hfu
    exact search_fuel_stable fuel timecnt times timecnt t 0 (timecnt - 1)
      (by omega) (by omega) (by omega)
  · have hpow : timecnt < 2 ^ (Nat.log 2 timecnt + 1) :=
      Nat.lt_pow_succ_log_self (by omega) timecnt
    exact search_depth_le (Nat.log 2 timecnt + 1) timecnt times timecnt t 0
      (timecnt - 1) (by omega) (by omega) (by omega)

/-- Witness for c9_search_depth at a concrete three-entry table. -/
theorem c9_search_depth_witness :
    search_transition_index 5 [(0 : Int), 10, 20] 3 15 0 2
      = search_transition_index 3 [(0 : Int), 10, 20] 3 15 0 2 ∧
    search_depth 3 [(0 : Int), 10, 20] 3 15 0 2 ≤ Nat.log 2 3 + 1 :=
  ⟨(c9_search_depth [(0 : Int), 10, 20] 15 3 (by decide)).1 5 (by decide),
   (c9_search_depth [(0 : Int), 10, 20] 15 3 (by decide)).2⟩

/-- C10: get_transition_index returns the same sentinel -1 when timecnt
is 0 and when (over an ascending table of length timecnt) the timestamp
lies strictly before the first transition, and -1 differs from every
valid index. -/
theorem c10_sentinel (times : List Int) (timecnt : Nat) (t : Int) :
    (timecnt = 0 → get_transition_index times timecnt t = -1) ∧
    (1 ≤ timecnt → timecnt ≤ times.length → List.Sorted (· < ·) times →
      t < times.getD 0 0 → get_transition_index times timecnt t = -1) ∧
    (∀ i : Nat, i < timecnt → (-1 : Int) ≠ (i : Int)) := by
  refine ⟨?_, ?_, ?_⟩
  · intro hz
    unfold get_transition_index
    rw [if_pos hz]
  · intro h1 h2 hs hlt
    unfold get_transition_index
    rw [if_neg (by omega : ¬timecnt = 0)]
    obtain ⟨n, hn⟩ := Nat.exists_eq_succ_of_ne_zero (by omega : timecnt ≠ 0)
    subst hn
    simp only [search_transition_index]
    have hne : ¬(times.getD (n + 1 - 1) 0 ≤ t) :=
      not_le.mpr (lt_of_lt_of_le hlt
        (sorted_getD_le times hs 0 (n + 1 - 1) (Nat.zero_le _) (by omega)))
    rw [if_neg hne, if_pos hlt]
  · intro i hi
    omega

/-- Witness for c10_sentinel: both sentinel situations on concrete
tables. -/
theorem c10_sentinel_witness :
    get_transition_index [] 0 5 = -1 ∧
    get_transition_index [(0 : Int)] 1 (-5) = -1 :=
  ⟨(c10_sentinel [] 0 5).1 rfl,
   (c10_sentinel [(0 : Int)] 1 (-5)).2.1 (by decide) (by decide) (by decide)
     (by decide)⟩

/-- C2: the header parser accepts magic plus version byte 2 or 3 with
consistent counts, and reports the respective failures; but the legacy
version byte 0 is rejected with UnsupportedVersion, because the source
compares the unpacked one-byte bytes object against the int 0, which is
always False in Python.  This theorem evaluates the parser at the
failing input (a legacy header with valid magic and consistent counts)
and at neighbouring inputs showing the other checks behave as claimed. -/
theorem c2_legacy_header_rejected :
    read_header tzinit (mkHeader 0 0 0 0) = .error .unsupportedVersion ∧
    (read_header tzinit (mkHeader 50 2 1 1)).isOk = true ∧
    (read_header tzinit (mkHeader 51 0 0 0)).isOk = true ∧
    read_header tzinit (mkHeader 52 0 0 0) = .error .unsupportedVersion ∧
    read_header tzinit ([84, 90, 105, 103] ++ List.drop 4 (mkHeader 50 0 0 0))
      = .error .badMagic ∧
    read_header tzinit
        (magicTag ++ [50] ++ List.replicate 15 0
          ++ [0, 0, 0, 2] ++ [0, 0, 0, 0] ++ [0, 0, 0, 0]
          ++ [0, 0, 0, 0] ++ [0, 0, 0, 3] ++ [0, 0, 0, 0])
      = .error .inconsistentCounts := by
  decide

/-- C5: the offset formatter renders the sign of the offset followed by
gmtime of the raw offset, which reduces modulo 86400: the offset -1800
renders as "-23:30:00" (the claim expects "-00:30:00"), and offsets of
25 hours wrap to "+01:00:00"; only the claimed 3600 case agrees. -/
theorem c5_formatter_wraps :
    utoff_strftime 3600 = "+01:00:00" ∧
    utoff_strftime (-1800) = "-23:30:00" ∧
    utoff_strftime (-1800) ≠ "-00:30:00" ∧
    utoff_strftime 90000 = "+01:00:00" := by
  decide

/-- C8: get_data_block_len returns exactly the claimed sum, with width 4
when the version argument equals the int 1 and width 8 otherwise. -/
theorem c8_data_block_len (st : TZState) (v : PyVal) :
    get_data_block_len st v =
      st.timecnt * (if pyEq v (.int 1) then 4 else 8) + st.timecnt
        + st.typecnt * 6 + st.charcnt
        + st.leapcnt * ((if pyEq v (.int 1) then 4 else 8) + 4)
        + st.isstdcnt + st.isutcnt := by
  rfl

/-- C1 counterexample: on bufC1 (extended version, first header with one
transition, second header with none) the claimed pipeline, which decodes
the first data block at width 4, produces transition times [100], while
read leaves them unset: read never decodes the first data block. -/
theorem c1_counterexample :
    Except.map TZState.transition_times (read tzinit bufC1) = .ok none ∧
    Except.map TZState.transition_times (read_claim_pipeline tzinit bufC1)
      = .ok (some [100]) := by
  decide

/-- C1 amended: read equals the pipeline that skips the first data-block
region (its length computed at width 4 from the first header) without
decoding it, then parses the second header, decodes the single data
block (at width 8, since the stored version is a bytes value), and
stores all remaining bytes as the footer. -/
theorem c1_read_skips_first_block (st : TZState) (buf : Bytes) :
    read st buf = read_skip_pipeline st buf := by
  unfold read read_skip_pipeline
  by_cases hb : 44 < buf.length
  · simp only [if_pos hb]
    cases hh : read_header st (pySlice buf 0 44) with
    | error e => rfl
    | ok st1 =>
      have hv : pyEq st1.version (.int 0) = false :=
        read_header_ok_version_not_int st _ st1 hh 0
      simp [hv]
  · simp only [if_neg hb]

/-- C4 counterexample: with one transition present, looking up the
BEFORE_FIRST sentinel -1 makes every accessor fail the bounds assert
(InvalidQuery) instead of returning a default record; with no
transitions (NONE), every accessor returns the literal 0 even though the
document stores a record (3600, 1, 0), so the lookup silently falls
through to zero-valued fields. -/
theorem c4_counterexample :
    get_transition_offset docC4 (-1) = .error .invalidQuery ∧
    get_transition_isdst docC4 (-1) = .error .invalidQuery ∧
    get_transition_desig_index docC4 (-1) = .error .invalidQuery ∧
    get_transition_offset docC4none 0 = .ok 0 ∧
    get_transition_isdst docC4none 0 = .ok 0 ∧
    get_transition_desig_index docC4none 0 = .ok 0 ∧
    docC4none.local_time_type_records = some [(3600, 1, 0)] := by
  decide

/-- C6 counterexample: bufC6 parses successfully into a document whose
transition times decrease (100 then -100), whose transition type 5 is
not below typecnt 1, and whose designation index 3 is not below
charcnt 1: the parser checks none of the content invariants. -/
theorem c6_counterexample :
    (read tzinit bufC6).isOk = true ∧
    Except.map TZState.transition_times (read tzinit bufC6)
      = .ok (some [100, -100]) ∧
    Except.map TZState.transition_types (read tzinit bufC6) = .ok (some [5, 0]) ∧
    Except.map TZState.typecnt (read tzinit bufC6) = .ok 1 ∧
    Except.map TZState.charcnt (read tzinit bufC6) = .ok 1 ∧
    Except.map TZState.local_time_type_records (read tzinit bufC6)
      = .ok (some [(0, 0, 3)]) ∧
    ¬ ((100 : Int) ≤ -100) := by
  decide

/-- C7 counterexample: a region shorter than the computed data-block
length need not fail: with charcnt 5 and every other count 0 the whole
length lies in the raw designation slice, which the source takes without
a length check, so read_data_block succeeds on the empty region. -/
theorem c7_counterexample :
    (read_data_block stC7 []).isOk = true ∧
    active_data_block_len stC7 = 5 ∧
    ([] : Bytes).length < 5 := by
  decide

end TzInfo
